import Mathlib

set_option maxHeartbeats 1000000

/- Verification of the dashboard server in src/dashboard/server.py.

   Shallow embedding conventions:
   - Python strings are modelled as lists of characters; a text file is a
     list of lines (without the trailing newline character, which the code
     either strips away or never inspects).
   - A value of type Option models a Python computation that can raise: a
     none result models an uncaught exception, some models normal return.
   - The current time (time.time()) is passed in as a rational parameter t.
   - Reading a file that may be absent is modelled by an Option argument:
     none models a missing file or an unreadable source. -/

/-- Characters treated as whitespace by Python str.strip and str.split. -/
def isPySpace (c : Char) : Bool :=
  c = ' ' || c = '\t' || c = '\n' || c = '\r' || c = '\x0b' || c = '\x0c'

/-- Python str.strip with no argument: remove leading and trailing whitespace. -/
def pyStrip (l : List Char) : List Char :=
  (((l.dropWhile isPySpace).reverse).dropWhile isPySpace).reverse

/-- Python str.split with a one-character separator: pieces between separator
    occurrences, keeping empty pieces, never returning an empty list. -/
def splitOnChar (sep : Char) : List Char → List (List Char)
  | [] => [[]]
  | c :: cs =>
    if c = sep then [] :: splitOnChar sep cs
    else
      match splitOnChar sep cs with
      | [] => [[c]]
      | p :: ps => (c :: p) :: ps

/-- Python str.split with no argument: split at every whitespace character
    and drop the empty pieces, which collapses whitespace runs and ignores
    leading and trailing whitespace exactly as Python does. -/
def pySplitWs (l : List Char) : List (List Char) :=
  (List.splitOnP isPySpace l).filter (fun p => !p.isEmpty)

/-- Python str.startswith for the prefix test used on cpuinfo lines. -/
def startsWithList (pat l : List Char) : Bool :=
  match pat, l with
  | [], _ => true
  | _ :: _, [] => false
  | p :: ps, c :: cs => p = c && startsWithList ps cs

/-- Python substring membership test (pat in s). -/
def containsSub (pat l : List Char) : Bool :=
  startsWithList pat l ||
    match l with
    | [] => false
    | _ :: cs => containsSub pat cs

/-- Numeric value of a list of decimal digit characters. -/
def digitsVal (l : List Char) : ℕ :=
  l.foldl (fun a c => 10 * a + (c.toNat - 48)) 0

/-- Parse an unsigned decimal mantissa (digits with an optional decimal
    point, at least one digit) and return its value with the unconsumed
    remainder of the token. -/
def parseUnsigned (l : List Char) : Option (ℚ × List Char) :=
  let ip := l.takeWhile Char.isDigit
  let r1 := l.dropWhile Char.isDigit
  match r1 with
  | '.' :: r2 =>
    let fp := r2.takeWhile Char.isDigit
    let r3 := r2.dropWhile Char.isDigit
    if ip.isEmpty && fp.isEmpty then none
    else some ((digitsVal ip : ℚ) + (digitsVal fp : ℚ) / (10 : ℚ) ^ fp.length, r3)
  | _ => if ip.isEmpty then none else some ((digitsVal ip : ℚ), r1)

/-- Digits of an exponent part, all of which must be decimal digits. -/
def parseExpDigits (l : List Char) : Option ℤ :=
  if !l.isEmpty && l.all Char.isDigit then some (digitsVal l : ℤ) else none

/-- Optionally signed exponent digits after the letter e. -/
def parseExpPart (l : List Char) : Option ℤ :=
  match l with
  | '+' :: r => parseExpDigits r
  | '-' :: r => (parseExpDigits r).map Neg.neg
  | r => parseExpDigits r

/-- Unsigned float token: mantissa optionally followed by an exponent, with
    nothing left over. -/
def pyFloatCore (l : List Char) : Option ℚ :=
  match parseUnsigned l with
  | none => none
  | some (m, rest) =>
    match rest with
    | [] => some m
    | 'e' :: r => (parseExpPart r).map (fun z => m * (10 : ℚ) ^ z)
    | 'E' :: r => (parseExpPart r).map (fun z => m * (10 : ℚ) ^ z)
    | _ => none

/-- Model of the Python float constructor on ordinary decimal tokens:
    optional sign, digits with an optional decimal point, optional exponent.
    Exact rational values stand in for IEEE doubles; no claim performs
    arithmetic on the parsed values, so only the accepted language and the
    literal values matter. The inf and nan spellings and underscore digit
    separators that Python additionally accepts play no role in any claim
    and are not modelled. A none result models a ValueError. -/
def pyFloat? (l : List Char) : Option ℚ :=
  match l with
  | '+' :: r => pyFloatCore r
  | '-' :: r => (pyFloatCore r).map Neg.neg
  | r => pyFloatCore r

/-- The baseline dictionary: a Python dict from size label to GFLOPS value. -/
abbrev Dict := List (List Char × ℚ)

/-- Python dict assignment d[k] = v: replace the binding in place if the key
    is present, otherwise append it. -/
def dictInsert (m : Dict) (k : List Char) (v : ℚ) : Dict :=
  match m with
  | [] => [(k, v)]
  | (k0, v0) :: rest => if k0 = k then (k, v) :: rest else (k0, v0) :: dictInsert rest k v

/-- Python dict lookup d[k] for the baseline dictionary. -/
def dictLookup (m : Dict) (k : List Char) : Option ℚ :=
  match m with
  | [] => none
  | (k0, v0) :: rest => if k0 = k then some v0 else dictLookup rest k

/-- The test for a colon in a line (the Python expression colon in line). -/
def hasColon (l : List Char) : Bool := l.any (fun c => c = ':')

/-- The characters of the marker substring GFLOPS. -/
def gflopsChars : List Char := ['G', 'F', 'L', 'O', 'P', 'S']

/-- The test GFLOPS in line from get_benchmark_data. -/
def hasGFLOPS (l : List Char) : Bool := containsSub gflopsChars l

/-- Body of one loop iteration of get_benchmark_data after the colon and
    GFLOPS tests have passed: parts = line.strip().split(colon), then
    parts[1].strip().split()[0] is parsed as a float and keyed by
    parts[0].strip(). A none result models the IndexError raised when
    nothing stands between the first and second colon, or the ValueError
    raised when the first token is not a float. -/
def extractEntry (line : List Char) : Option (List Char × ℚ) :=
  match splitOnChar ':' (pyStrip line) with
  | p0 :: p1 :: _ =>
    match (pySplitWs (pyStrip p1)).head? with
    | none => none
    | some tok =>
      match pyFloat? tok with
      | none => none
      | some v => some (pyStrip p0, v)
  | _ => none

/-- One full loop iteration of get_benchmark_data on one line of the results
    file: outer none models an exception, some none models a silently
    skipped line, some (some (s, v)) models the assignment baseline[s] = v. -/
def lineStep (line : List Char) : Option (Option (List Char × ℚ)) :=
  if hasColon line && hasGFLOPS line then
    match extractEntry line with
    | none => none
    | some e => some (some e)
  else some none

/-- Effect of one line on the baseline dictionary. -/
def processLine (m : Dict) (line : List Char) : Option Dict :=
  match lineStep line with
  | none => none
  | some none => some m
  | some (some (s, v)) => some (dictInsert m s v)

/-- The parsing loop of get_benchmark_data, starting from dictionary m. -/
def parseFrom (m : Dict) : List (List Char) → Option Dict
  | [] => some m
  | line :: rest =>
    match processLine m line with
    | none => none
    | some m2 => parseFrom m2 rest

/-- The whole baseline-loading loop, starting from the empty dictionary. -/
def parseBaseline (lines : List (List Char)) : Option Dict := parseFrom [] lines

/-- One row of the hardcoded optimization table. -/
structure OptEntry where
  rank : ℕ
  gflops : ℚ
  time : ℚ
  opt : String
  march : String
  size : String
deriving DecidableEq

/-- The fixed optimization list assigned by get_benchmark_data. -/
def fixedOptimizations : List OptEntry :=
  [⟨1, 4.56, 0, "-O2", "Autodetect", "micro"⟩,
   ⟨2, 4.50, 0, "-O3", "None", "micro"⟩,
   ⟨3, 2.59, 0.104, "-O3", "V2", "small"⟩]

/-- The JSON object returned by GET /api/data. -/
structure BenchmarkData where
  baseline : Dict
  optimizations : List OptEntry
  timestamp : ℚ
deriving DecidableEq

/-- get_benchmark_data: t models time.time() and file models the content of
    results/baseline_summary.txt as a list of lines, none meaning the file
    does not exist. A none result models an uncaught exception escaping the
    handler. -/
def get_benchmark_data (t : ℚ) (file : Option (List (List Char))) :
    Option BenchmarkData :=
  match file with
  | none => some ⟨[], fixedOptimizations, t⟩
  | some lines =>
    match parseBaseline lines with
    | none => none
    | some m => some ⟨m, fixedOptimizations, t⟩

/-- The characters of the label substring searched case-insensitively. -/
def modelNameChars : List Char := ['m', 'o', 'd', 'e', 'l', ' ', 'n', 'a', 'm', 'e']

/-- The test model name in line.lower() from get_system_info. Python str.lower
    agrees with Char.toLower on the ASCII text involved. -/
def isModelNameLine (line : List Char) : Bool :=
  containsSub modelNameChars (line.map Char.toLower)

/-- The characters of the prefix tested by line.startswith. -/
def procChars : List Char := ['p', 'r', 'o', 'c', 'e', 's', 's', 'o', 'r']

/-- One iteration of the cpuinfo loop of get_system_info on the accumulator
    (processor name so far, core count so far). A none result models the
    IndexError raised by line.split(colon)[1] on a model name line with no
    colon. -/
def scanLine (acc : List Char × ℕ) (line : List Char) : Option (List Char × ℕ) :=
  if isModelNameLine line then
    match splitOnChar ':' line with
    | _ :: p1 :: _ => some (pyStrip p1, acc.2)
    | _ => none
  else if startsWithList procChars line then some (acc.1, acc.2 + 1)
  else some acc

/-- The whole cpuinfo loop of get_system_info. -/
def scanFrom (acc : List Char × ℕ) : List (List Char) → Option (List Char × ℕ)
  | [] => some acc
  | line :: rest =>
    match scanLine acc line with
    | none => none
    | some acc2 => scanFrom acc2 rest

/-- The JSON object returned by GET /api/system; the fallback branch returns
    no timestamp field, modelled by a none timestamp. -/
structure SystemInfo where
  processor : List Char
  cores : ℕ
  timestamp : Option ℚ
deriving DecidableEq

/-- get_system_info: cpuinfo models the text of /proc/cpuinfo, none meaning
    the read itself raised. Any exception inside the try block, including the
    IndexError from a model name line without a colon, lands in the bare
    except branch that returns the hardcoded default without a timestamp. -/
def get_system_info (t : ℚ) (cpuinfo : Option (List Char)) : SystemInfo :=
  match cpuinfo with
  | none => ⟨"Neoverse System".toList, 16, none⟩
  | some s =>
    match scanFrom ("Unknown".toList, 0) (splitOnChar '\n' s) with
    | none => ⟨"Neoverse System".toList, 16, none⟩
    | some (p, c) => ⟨p, c, some t⟩

/-- JSON values as decoded by json.loads. -/
inductive Json where
  | null : Json
  | bool (b : Bool) : Json
  | num (q : ℚ) : Json
  | str (s : String) : Json
  | arr (elems : List Json) : Json
  | obj (fields : List (String × Json)) : Json

/-- Lookup in a decoded JSON object: json.loads keeps the last binding when
    a key is repeated. -/
def lookupLast (fields : List (String × Json)) (k : String) : Option Json :=
  match fields with
  | [] => none
  | (k0, v0) :: rest =>
    match lookupLast rest k with
    | some v => some v
    | none => if k0 = k then some v0 else none

/-- The Python expression data.get(key, default): only a decoded JSON object
    is a Python dict with a get method; on every other decoded value the
    attribute access raises, modelled as none. -/
def pyGet (j : Json) (k : String) (dflt : Json) : Option Json :=
  match j with
  | Json.obj fields => some ((lookupLast fields k).getD dflt)
  | _ => none

/-- What the background thread body run_async does: it runs the script iff
    the script file exists; a subprocess failure is only printed. The Bool
    records whether the script was run. -/
def run_async (scriptExists : Bool) : Bool := scriptExists

/-- The acknowledgement object built by run_benchmark. -/
structure RunResult where
  status : String
  type : Json

/-- run_benchmark: spawns the background thread and immediately returns the
    acknowledgement; the second component records what the spawned thread
    does with the script. -/
def run_benchmark (scriptExists : Bool) (benchmark_type : Json) : RunResult × Bool :=
  (⟨"started", benchmark_type⟩, run_async scriptExists)

/-- Outcome of a POST request: a 200 JSON acknowledgement or a plain 404. -/
inductive PostResponse where
  | ok (r : RunResult) : PostResponse
  | notFound : PostResponse

/-- do_POST: body models the request body after json.loads, where none
    models an absent Content-Length header (int(None) raises) or a body that
    json.loads rejects; either exception escapes the handler, so no response
    is sent, modelled by a none response. The Bool records whether a
    background benchmark thread was spawned. -/
def do_POST (scriptExists : Bool) (path : String) (body : Option Json) :
    Option PostResponse × Bool :=
  if path = "/api/run-benchmark" then
    match body with
    | none => (none, false)
    | some j =>
      match pyGet j "type" (Json.str "baseline") with
      | none => (none, false)
      | some tv => (some (PostResponse.ok (run_benchmark scriptExists tv).1), true)
  else (some PostResponse.notFound, false)

/-- The well-formed results line shape named by the spec: a label, a colon
    and a space, a float token, a space and the marker GFLOPS. -/
def specShape (label fstr : List Char) : List Char :=
  label ++ ':' :: ' ' :: (fstr ++ ' ' :: gflopsChars)

theorem dropWhile_cons_false (p : Char → Bool) (c : Char) (l : List Char)
    (h : p c = false) : (c :: l).dropWhile p = c :: l := by
  simp [List.dropWhile_cons, h]

theorem dropWhile_length_le (p : Char → Bool) (l : List Char) :
    (l.dropWhile p).length ≤ l.length := by
  induction l with
  | nil => simp
  | cons c cs ih =>
    rw [List.dropWhile_cons]
    split
    · exact Nat.le_succ_of_le ih
    · simp

theorem head_false_of_dropWhile_eq (p : Char → Bool) (c : Char) (l : List Char)
    (h : (c :: l).dropWhile p = c :: l) : p c = false := by
  by_contra hb
  rw [Bool.not_eq_false] at hb
  rw [List.dropWhile_cons, if_pos hb] at h
  have h1 : (l.dropWhile p).length = l.length + 1 := by rw [h]; simp
  have h2 : (l.dropWhile p).length ≤ l.length := dropWhile_length_le p l
  omega

theorem dropWhile_append_self (p : Char → Bool) (l1 l2 : List Char)
    (h1 : l1.dropWhile p = l1) (h2 : l2.dropWhile p = l2) :
    (l1 ++ l2).dropWhile p = l1 ++ l2 := by
  cases l1 with
  | nil => simpa using h2
  | cons c cs =>
    have hc : p c = false := head_false_of_dropWhile_eq p c cs h1
    simp [List.dropWhile_cons, hc]

theorem splitOnP_token (l1 : List Char) (a : Char) (l2 : List Char)
    (h1 : ∀ c ∈ l1, isPySpace c = false) (h2 : isPySpace a = true) :
    List.splitOnP isPySpace (l1 ++ a :: l2) = l1 :: List.splitOnP isPySpace l2 := by
  induction l1 with
  | nil => simp [List.splitOnP_cons, h2]
  | cons c cs ih =>
    have hc : isPySpace c = false := h1 c (by simp)
    have ih2 := ih (fun d hd => h1 d (by simp [hd]))
    simp [List.splitOnP_cons, hc, ih2]

theorem pySplitWs_head (fstr rest : List Char)
    (h1 : ∀ c ∈ fstr, isPySpace c = false) (hne : fstr ≠ []) :
    (pySplitWs (fstr ++ ' ' :: rest)).head? = some fstr := by
  unfold pySplitWs
  rw [splitOnP_token fstr ' ' rest h1 (by decide)]
  obtain ⟨c, cs, hcc⟩ := List.exists_cons_of_ne_nil hne
  subst hcc
  simp [List.filter_cons, List.isEmpty]

theorem startsWithList_self_append (pat l : List Char) :
    startsWithList pat (pat ++ l) = true := by
  induction pat with
  | nil => rfl
  | cons c cs ih => simp [startsWithList, ih]

theorem containsSub_of_startsWith (pat l : List Char)
    (h : startsWithList pat l = true) : containsSub pat l = true := by
  unfold containsSub
  rw [h]
  simp

theorem containsSub_of_parts (pat x y : List Char) :
    containsSub pat (x ++ pat ++ y) = true := by
  induction x with
  | nil =>
    simp only [List.nil_append]
    exact containsSub_of_startsWith pat (pat ++ y) (startsWithList_self_append pat y)
  | cons c cs ih =>
    simp only [List.cons_append]
    unfold containsSub
    rw [List.append_assoc] at ih
    simp [ih]

theorem splitOnChar_no_sep (sep : Char) (l : List Char) (h : sep ∉ l) :
    splitOnChar sep l = [l] := by
  induction l with
  | nil => rfl
  | cons c cs ih =>
    have hc : ¬ c = sep := fun hcc => h (hcc ▸ List.mem_cons_self c cs)
    have ih2 := ih (fun hm => h (List.mem_cons_of_mem c hm))
    simp [splitOnChar, hc, ih2]

theorem splitOnChar_append_sep (sep : Char) (l1 l2 : List Char) (h : sep ∉ l1) :
    splitOnChar sep (l1 ++ sep :: l2) = l1 :: splitOnChar sep l2 := by
  induction l1 with
  | nil => simp [splitOnChar]
  | cons c cs ih =>
    have hc : ¬ c = sep := fun hcc => h (hcc ▸ List.mem_cons_self c cs)
    have ih2 := ih (fun hm => h (List.mem_cons_of_mem c hm))
    simp [splitOnChar, hc, ih2]

theorem dictLookup_insert_self (m : Dict) (k : List Char) (v : ℚ) :
    dictLookup (dictInsert m k v) k = some v := by
  induction m with
  | nil => simp [dictInsert, dictLookup]
  | cons kv rest ih =>
    obtain ⟨k0, v0⟩ := kv
    by_cases h : k0 = k
    · simp [dictInsert, h, dictLookup]
    · simp [dictInsert, h, dictLookup, ih]

theorem dictLookup_insert_other (m : Dict) (k k2 : List Char) (v : ℚ)
    (h : ¬ k = k2) : dictLookup (dictInsert m k v) k2 = dictLookup m k2 := by
  induction m with
  | nil => simp [dictInsert, dictLookup, h]
  | cons kv rest ih =>
    obtain ⟨k0, v0⟩ := kv
    by_cases h0 : k0 = k
    · subst h0
      simp [dictInsert, dictLookup, h]
    · simp [dictInsert, h0, dictLookup, ih]

theorem parseFrom_append (m : Dict) (l1 l2 : List (List Char)) :
    parseFrom m (l1 ++ l2) =
      match parseFrom m l1 with
      | none => none
      | some m2 => parseFrom m2 l2 := by
  induction l1 generalizing m with
  | nil => simp [parseFrom]
  | cons x xs ih =>
    simp only [List.cons_append, parseFrom]
    cases processLine m x with
    | none => rfl
    | some m2 => exact ih m2

theorem parseFrom_none_of_mem (m : Dict) (lines : List (List Char)) (l : List Char)
    (hmem : l ∈ lines) (hl : lineStep l = none) : parseFrom m lines = none := by
  induction lines generalizing m with
  | nil => cases hmem
  | cons x xs ih =>
    simp only [parseFrom]
    rcases List.mem_cons.mp hmem with h | h
    · subst h
      have hx : processLine m l = none := by rw [processLine, hl]
      rw [hx]
    · cases hp : processLine m x with
      | none => rfl
      | some m2 => exact ih m2 h

theorem parseFrom_lookup_stable (s : List Char) (lines : List (List Char)) :
    ∀ m m2 : Dict, (∀ l ∈ lines, ∀ v : ℚ, lineStep l ≠ some (some (s, v))) →
    parseFrom m lines = some m2 → dictLookup m2 s = dictLookup m s := by
  induction lines with
  | nil =>
    intro m m2 _ hp
    simp [parseFrom] at hp
    rw [hp]
  | cons x xs ih =>
    intro m m2 hno hp
    simp only [parseFrom] at hp
    cases hx : lineStep x with
    | none =>
      rw [processLine, hx] at hp
      cases hp
    | some o =>
      cases o with
      | none =>
        rw [processLine, hx] at hp
        exact ih m m2 (fun l hl v => hno l (List.mem_cons_of_mem x hl) v) hp
      | some sv =>
        obtain ⟨s2, v2⟩ := sv
        rw [processLine, hx] at hp
        have hne : ¬ s2 = s := by
          intro hss
          exact hno x (List.mem_cons_self x xs) v2 (by rw [hx, hss])
        have := ih (dictInsert m s2 v2) m2
          (fun l hl v => hno l (List.mem_cons_of_mem x hl) v) hp
        rw [this, dictLookup_insert_other m s2 s v2 hne]

theorem parse_last_entry (t : ℚ) (pre post : List (List Char)) (l s : List Char)
    (v : ℚ) (d : BenchmarkData)
    (hl : lineStep l = some (some (s, v)))
    (hlast : ∀ l2 ∈ post, ∀ v2 : ℚ, lineStep l2 ≠ some (some (s, v2)))
    (h : get_benchmark_data t (some (pre ++ l :: post)) = some d) :
    dictLookup d.baseline s = some v := by
  have h2 : (match parseBaseline (pre ++ l :: post) with
      | none => (none : Option BenchmarkData)
      | some m => some ⟨m, fixedOptimizations, t⟩) = some d := h
  clear h
  cases hpb : parseBaseline (pre ++ l :: post) with
  | none =>
    rw [hpb] at h2
    simp at h2
  | some m =>
    rw [hpb] at h2
    have hd0 : some (⟨m, fixedOptimizations, t⟩ : BenchmarkData) = some d := h2
    have hd : d = ⟨m, fixedOptimizations, t⟩ := by
      cases hd0
      rfl
    unfold parseBaseline at hpb
    rw [parseFrom_append] at hpb
    cases hp1 : parseFrom [] pre with
    | none => rw [hp1] at hpb; cases hpb
    | some m1 =>
      rw [hp1] at hpb
      simp only [parseFrom] at hpb
      rw [processLine, hl] at hpb
      have hstable := parseFrom_lookup_stable s post (dictInsert m1 s v) m hlast hpb
      rw [hd]
      show dictLookup m s = some v
      rw [hstable, dictLookup_insert_self]

theorem scanFrom_append (acc : List Char × ℕ) (l1 l2 : List (List Char)) :
    scanFrom acc (l1 ++ l2) =
      match scanFrom acc l1 with
      | none => none
      | some a2 => scanFrom a2 l2 := by
  induction l1 generalizing acc with
  | nil => simp [scanFrom]
  | cons x xs ih =>
    simp only [List.cons_append, scanFrom]
    cases scanLine acc x with
    | none => rfl
    | some a2 => exact ih a2

theorem scanFrom_cons_no_model (acc : List Char × ℕ) (x : List Char)
    (xs : List (List Char)) (hm : isModelNameLine x = false) :
    scanFrom acc (x :: xs) =
      scanFrom (acc.1, acc.2 + (if startsWithList procChars x then 1 else 0)) xs := by
  simp only [scanFrom, scanLine, hm]
  by_cases hp : startsWithList procChars x = true
  · simp [hp]
  · rw [Bool.not_eq_true] at hp
    simp [hp]

theorem scanFrom_cons_model (acc : List Char × ℕ) (x : List Char)
    (xs : List (List Char)) (q0 p1 : List Char) (pr : List (List Char))
    (hm : isModelNameLine x = true) (hsp : splitOnChar ':' x = q0 :: p1 :: pr) :
    scanFrom acc (x :: xs) = scanFrom (pyStrip p1, acc.2) xs := by
  simp only [scanFrom, scanLine, hm, hsp]
  simp

theorem scanFrom_fst_stable (lines : List (List Char)) :
    ∀ acc r, (∀ l ∈ lines, isModelNameLine l = false) →
    scanFrom acc lines = some r → r.1 = acc.1 := by
  induction lines with
  | nil =>
    intro acc r _ h
    simp [scanFrom] at h
    rw [← h]
  | cons x xs ih =>
    intro acc r hno h
    rw [scanFrom_cons_no_model acc x xs (hno x (List.mem_cons_self x xs))] at h
    exact ih (acc.1, acc.2 + (if startsWithList procChars x then 1 else 0)) r
      (fun l hl => hno l (List.mem_cons_of_mem x hl)) h

/-- The predicate under which a cpuinfo line increments the core counter. -/
def countsAsCore (l : List Char) : Bool :=
  !isModelNameLine l && startsWithList procChars l

theorem scanFrom_cores (lines : List (List Char)) :
    ∀ acc r, scanFrom acc lines = some r →
    r.2 = acc.2 + List.countP countsAsCore lines := by
  induction lines with
  | nil =>
    intro acc r h
    simp [scanFrom] at h
    rw [← h]
    simp
  | cons x xs ih =>
    intro acc r h
    rw [List.countP_cons]
    cases hm : isModelNameLine x with
    | true =>
      have hcc : countsAsCore x = false := by simp [countsAsCore, hm]
      rw [hcc]
      cases hsp : splitOnChar ':' x with
      | nil =>
        simp [scanFrom, scanLine, hm, hsp] at h
      | cons q0 ps =>
        cases ps with
        | nil =>
          simp [scanFrom, scanLine, hm, hsp] at h
        | cons p1 pr =>
          rw [scanFrom_cons_model acc x xs q0 p1 pr hm hsp] at h
          have hr := ih (pyStrip p1, acc.2) r h
          simp at hr ⊢
          omega
    | false =>
      rw [scanFrom_cons_no_model acc x xs hm] at h
      have hr := ih _ r h
      simp only [] at hr
      have hcc : countsAsCore x = startsWithList procChars x := by
        simp [countsAsCore, hm]
      rw [hcc]
      cases hp : startsWithList procChars x with
      | true => rw [hp] at hr; simp at hr ⊢; omega
      | false => rw [hp] at hr; simp at hr ⊢; omega

theorem scanFrom_no_model_eq (lines : List (List Char)) :
    ∀ acc, (∀ l ∈ lines, isModelNameLine l = false) →
    scanFrom acc lines = some (acc.1, acc.2 + List.countP countsAsCore lines) := by
  induction lines with
  | nil => intro acc _; simp [scanFrom]
  | cons x xs ih =>
    intro acc hno
    have hm := hno x (List.mem_cons_self x xs)
    rw [scanFrom_cons_no_model acc x xs hm]
    rw [ih _ (fun l hl => hno l (List.mem_cons_of_mem x hl))]
    rw [List.countP_cons]
    have hcc : countsAsCore x = startsWithList procChars x := by
      simp [countsAsCore, hm]
    rw [hcc]
    cases hp : startsWithList procChars x with
    | true => simp; omega
    | false => simp

theorem lineStep_specShape (s fstr : List Char) (v : ℚ)
    (hs1 : s.dropWhile isPySpace = s)
    (hs2 : s.reverse.dropWhile isPySpace = s.reverse)
    (hsc : ':' ∉ s)
    (hne : fstr ≠ [])
    (hfc : ∀ c ∈ fstr, isPySpace c = false ∧ c ≠ ':')
    (hf : pyFloat? fstr = some v) :
    lineStep (specShape s fstr) = some (some (s, v)) := by
  have hrest_nocolon : ':' ∉ (' ' :: (fstr ++ ' ' :: gflopsChars)) := by
    intro hmem
    rcases List.mem_cons.mp hmem with h | h
    · exact absurd h (by decide)
    · rcases List.mem_append.mp h with h2 | h2
      · exact (hfc ':' h2).2 rfl
      · exact absurd h2 (by decide)
  have hmid : (':' :: ' ' :: (fstr ++ ' ' :: gflopsChars)).dropWhile isPySpace =
      ':' :: ' ' :: (fstr ++ ' ' :: gflopsChars) :=
    dropWhile_cons_false _ _ _ (by decide)
  have hlineDrop : (specShape s fstr).dropWhile isPySpace = specShape s fstr := by
    unfold specShape
    exact dropWhile_append_self isPySpace s _ hs1 hmid
  have hsplitS : specShape s fstr =
      (s ++ ':' :: ' ' :: (fstr ++ [' ', 'G', 'F', 'L', 'O', 'P'])) ++ ['S'] := by
    simp [specShape, gflopsChars]
  have hrev : (specShape s fstr).reverse =
      'S' :: (s ++ ':' :: ' ' :: (fstr ++ [' ', 'G', 'F', 'L', 'O', 'P'])).reverse := by
    rw [hsplitS]
    simp
  have hrevDrop : (specShape s fstr).reverse.dropWhile isPySpace =
      (specShape s fstr).reverse := by
    rw [hrev]
    exact dropWhile_cons_false _ _ _ (by decide)
  have hstripLine : pyStrip (specShape s fstr) = specShape s fstr := by
    unfold pyStrip
    rw [hlineDrop, hrevDrop, List.reverse_reverse]
  have hsplitColon : splitOnChar ':' (specShape s fstr) =
      [s, ' ' :: (fstr ++ ' ' :: gflopsChars)] := by
    unfold specShape
    rw [splitOnChar_append_sep ':' s _ hsc]
    rw [splitOnChar_no_sep ':' _ hrest_nocolon]
  obtain ⟨a, t, hat⟩ := List.exists_cons_of_ne_nil hne
  have hp1drop : (' ' :: (fstr ++ ' ' :: gflopsChars)).dropWhile isPySpace =
      fstr ++ ' ' :: gflopsChars := by
    rw [List.dropWhile_cons, if_pos (show isPySpace ' ' = true by decide)]
    rw [hat, List.cons_append]
    exact dropWhile_cons_false _ _ _
      ((hfc a (by rw [hat]; exact List.mem_cons_self a t)).1)
  have hsplit2 : fstr ++ ' ' :: gflopsChars =
      (fstr ++ [' ', 'G', 'F', 'L', 'O', 'P']) ++ ['S'] := by
    simp [gflopsChars]
  have hrev2 : (fstr ++ ' ' :: gflopsChars).reverse =
      'S' :: (fstr ++ [' ', 'G', 'F', 'L', 'O', 'P']).reverse := by
    rw [hsplit2]
    simp
  have hrevDrop2 : (fstr ++ ' ' :: gflopsChars).reverse.dropWhile isPySpace =
      (fstr ++ ' ' :: gflopsChars).reverse := by
    rw [hrev2]
    exact dropWhile_cons_false _ _ _ (by decide)
  have hstripP1 : pyStrip (' ' :: (fstr ++ ' ' :: gflopsChars)) =
      fstr ++ ' ' :: gflopsChars := by
    unfold pyStrip
    rw [hp1drop, hrevDrop2, List.reverse_reverse]
  have hhead : (pySplitWs (fstr ++ ' ' :: gflopsChars)).head? = some fstr :=
    pySplitWs_head fstr gflopsChars (fun c hc => (hfc c hc).1) hne
  have hstripS : pyStrip s = s := by
    unfold pyStrip
    rw [hs1, hs2, List.reverse_reverse]
  have hcolon : hasColon (specShape s fstr) = true := by
    unfold hasColon specShape
    rw [List.any_eq_true]
    exact ⟨':', by simp, by decide⟩
  have hgflops : hasGFLOPS (specShape s fstr) = true := by
    unfold hasGFLOPS
    rw [show specShape s fstr = (s ++ ':' :: ' ' :: (fstr ++ [' '])) ++ gflopsChars ++ []
      from by simp [specShape]]
    exact containsSub_of_parts gflopsChars _ _
  simp only [lineStep, hcolon, hgflops, Bool.and_self, if_true]
  simp only [extractEntry, hstripLine, hsplitColon, hstripP1, hhead, hf, hstripS]

/-- C2 counterexample: the line foo colon bar GFLOPS contains a colon and the
    substring GFLOPS but its first token after the colon is not a float, and
    get_benchmark_data raises (modelled by a none result) instead of skipping
    the line, so the claim that such lines are skipped without error is false. -/
theorem C2_counterexample :
    get_benchmark_data 0 (some [("foo: bar GFLOPS").toList]) = none := by decide

/-- C2 amended: a line that contains a colon and the substring GFLOPS but on
    which the extraction fails (no token between the first and second colon,
    or a first token that is not a float) makes get_benchmark_data raise an
    uncaught exception, modelled by a none result; only lines lacking a colon
    or lacking GFLOPS are silently skipped. -/
theorem C2_amended_thm :
    ∀ (t : ℚ) (lines : List (List Char)) (l : List Char),
      l ∈ lines → lineStep l = none →
      get_benchmark_data t (some lines) = none := by
  intro t lines l hmem hl
  show (match parseBaseline lines with
    | none => (none : Option BenchmarkData)
    | some m => some ⟨m, fixedOptimizations, t⟩) = none
  rw [show parseBaseline lines = none from parseFrom_none_of_mem [] lines l hmem hl]

/-- Witness for C2 amended at a concrete malformed line. -/
theorem C2_witness :
    get_benchmark_data 0 (some [("x: y GFLOPS").toList]) = none :=
  C2_amended_thm 0 [("x: y GFLOPS").toList] (("x: y GFLOPS").toList)
    (by decide) (by decide)

/-- C3: when the results file does not exist get_benchmark_data returns an
    empty baseline together with the fixed optimization list, whose ranks are
    exactly 1, 2, 3, and every successful result carries that same fixed
    list whatever the file contents were. -/
theorem C3_thm :
    (∀ t : ℚ, get_benchmark_data t none = some ⟨[], fixedOptimizations, t⟩) ∧
    fixedOptimizations.map OptEntry.rank = [1, 2, 3] ∧
    (∀ (t : ℚ) (file : Option (List (List Char))) (d : BenchmarkData),
      get_benchmark_data t file = some d → d.optimizations = fixedOptimizations) := by
  refine ⟨fun t => rfl, rfl, ?_⟩
  intro t file d h
  cases file with
  | none =>
    have h2 : some (⟨[], fixedOptimizations, t⟩ : BenchmarkData) = some d := h
    cases h2
    rfl
  | some lines =>
    have h2 : (match parseBaseline lines with
      | none => (none : Option BenchmarkData)
      | some m => some ⟨m, fixedOptimizations, t⟩) = some d := h
    cases hm : parseBaseline lines with
    | none =>
      rw [hm] at h2
      simp at h2
    | some m =>
      rw [hm] at h2
      have h3 : some (⟨m, fixedOptimizations, t⟩ : BenchmarkData) = some d := h2
      cases h3
      rfl

/-- Witness for C3 on the missing-file input. -/
theorem C3_witness :
    (⟨[], fixedOptimizations, 0⟩ : BenchmarkData).optimizations = fixedOptimizations :=
  C3_thm.2.2 0 none ⟨[], fixedOptimizations, 0⟩ rfl

/-- C5: when reading the cpuinfo source raises, and likewise when scanning it
    raises, get_system_info returns exactly the hardcoded default with
    processor Neoverse System and 16 cores and no timestamp field. -/
theorem C5_thm :
    (∀ t : ℚ, get_system_info t none = ⟨"Neoverse System".toList, 16, none⟩) ∧
    (∀ (t : ℚ) (s : List Char),
      scanFrom ("Unknown".toList, 0) (splitOnChar '\n' s) = none →
      get_system_info t (some s) = ⟨"Neoverse System".toList, 16, none⟩) := by
  refine ⟨fun t => rfl, ?_⟩
  intro t s h
  simp only [get_system_info]
  rw [h]

/-- Witness for C5: a model name line with no colon makes the scan raise. -/
theorem C5_witness :
    get_system_info 0 (some ("model name".toList)) =
      ⟨"Neoverse System".toList, 16, none⟩ :=
  C5_thm.2 0 ("model name".toList) (by decide)

/-- C6: run_benchmark always returns the started acknowledgement echoing the
    requested type, identically whether or not the benchmark script exists;
    in particular the type custom is echoed back. -/
theorem C6_thm :
    ∀ (e : Bool) (b : Json),
      (run_benchmark e b).1 = ⟨"started", b⟩ ∧
      (run_benchmark true b).1 = (run_benchmark false b).1 ∧
      (run_benchmark e (Json.str "custom")).1 = ⟨"started", Json.str "custom"⟩ :=
  fun e b => ⟨rfl, rfl, rfl⟩

/-- C8: every POST whose path is not the run-benchmark route gets a plain 404
    and spawns no benchmark thread. -/
theorem C8_thm :
    ∀ (e : Bool) (path : String) (body : Option Json),
      path ≠ "/api/run-benchmark" →
      do_POST e path body = (some PostResponse.notFound, false) := by
  intro e path body h
  unfold do_POST
  rw [if_neg h]

/-- Witness for C8 at the path of the data endpoint. -/
theorem C8_witness :
    do_POST false "/api/data" none = (some PostResponse.notFound, false) :=
  C8_thm false "/api/data" none (by decide)

/-- C9: when a line stores the entry s maps-to v and no later line of the
    file stores an entry for the same label s, the baseline dictionary of a
    successful get_benchmark_data result maps s to v, so later duplicate
    labels overwrite earlier ones. -/
theorem C9_thm :
    ∀ (t : ℚ) (pre : List (List Char)) (l : List Char) (post : List (List Char))
      (s : List Char) (v : ℚ) (d : BenchmarkData),
      lineStep l = some (some (s, v)) →
      (∀ l2 ∈ post, ∀ v2 : ℚ, lineStep l2 ≠ some (some (s, v2))) →
      get_benchmark_data t (some (pre ++ l :: post)) = some d →
      dictLookup d.baseline s = some v :=
  fun t pre l post s v d hl hlast h => parse_last_entry t pre post l s v d hl hlast h

/-- Witness for C9: the label a occurs on two well-formed lines and the
    stored value is the one of the second line. -/
theorem C9_witness :
    dictLookup [("a".toList, (2 : ℚ))] ("a".toList) = some 2 := by
  have hl : lineStep ("a: 2.0 GFLOPS".toList) = some (some ("a".toList, (2 : ℚ))) := by
    rw [show lineStep ("a: 2.0 GFLOPS".toList) = some (some ("a".toList,
        (digitsVal ['2'] : ℚ) + (digitsVal ['0'] : ℚ) / (10 : ℚ) ^ 1)) from rfl,
      show digitsVal ['2'] = 2 from rfl, show digitsVal ['0'] = 0 from rfl]
    norm_num
  have hparse : get_benchmark_data 0
      (some (["a: 1.0 GFLOPS".toList] ++ ("a: 2.0 GFLOPS".toList) :: [])) =
      some ⟨[("a".toList, (2 : ℚ))], fixedOptimizations, 0⟩ := by
    rw [show get_benchmark_data 0
        (some (["a: 1.0 GFLOPS".toList] ++ ("a: 2.0 GFLOPS".toList) :: [])) =
      some ⟨[("a".toList,
        (digitsVal ['2'] : ℚ) + (digitsVal ['0'] : ℚ) / (10 : ℚ) ^ 1)],
        fixedOptimizations, 0⟩ from rfl,
      show digitsVal ['2'] = 2 from rfl, show digitsVal ['0'] = 0 from rfl]
    norm_num
  exact C9_thm 0 ["a: 1.0 GFLOPS".toList] ("a: 2.0 GFLOPS".toList) [] ("a".toList) 2
    ⟨[("a".toList, (2 : ℚ))], fixedOptimizations, 0⟩ hl (by simp) hparse

/-- C10: on readable cpuinfo text with no model name line get_system_info
    keeps the initial processor value Unknown and returns a timestamp, hence
    not the hardcoded fallback, and when additionally no line starts with
    the word processor the core count is zero. -/
theorem C10_thm :
    ∀ (t : ℚ) (s : List Char),
      ((∀ l ∈ splitOnChar '\n' s, isModelNameLine l = false) →
        get_system_info t (some s) =
          ⟨"Unknown".toList, List.countP countsAsCore (splitOnChar '\n' s), some t⟩) ∧
      ((∀ l ∈ splitOnChar '\n' s, isModelNameLine l = false) →
       (∀ l ∈ splitOnChar '\n' s, startsWithList procChars l = false) →
        (get_system_info t (some s)).cores = 0) := by
  intro t s
  have main : (∀ l ∈ splitOnChar '\n' s, isModelNameLine l = false) →
      get_system_info t (some s) =
        ⟨"Unknown".toList, List.countP countsAsCore (splitOnChar '\n' s), some t⟩ := by
    intro h
    simp only [get_system_info]
    rw [scanFrom_no_model_eq (splitOnChar '\n' s) ("Unknown".toList, 0) h]
    simp
  refine ⟨main, ?_⟩
  intro h h2
  rw [main h]
  have hc : List.countP countsAsCore (splitOnChar '\n' s) = 0 := by
    rw [List.countP_eq_zero]
    intro l hl
    simp [countsAsCore, h2 l hl]
  simp [hc]

/-- Witness for C10 on a one-line file with no matching content. -/
theorem C10_witness :
    get_system_info 0 (some ("hello".toList)) =
      ⟨"Unknown".toList,
        List.countP countsAsCore (splitOnChar '\n' ("hello".toList)), some 0⟩ ∧
    (get_system_info 0 (some ("hello".toList))).cores = 0 :=
  ⟨(C10_thm 0 ("hello".toList)).1 (by decide),
   (C10_thm 0 ("hello".toList)).2 (by decide) (by decide)⟩

/-- C1 counterexample: both file lines have the well-formed shape with label
    a, the first with value 1 and the second with value 2, yet the produced
    baseline maps a to 2, so the mapping does not contain the entry of the
    first well-formed line and the universally quantified claim is false. -/
theorem C1_counterexample :
    specShape ("a".toList) ("1.0".toList) = ("a: 1.0 GFLOPS").toList ∧
    pyFloat? ("1.0".toList) = some 1 ∧
    pyFloat? ("2.0".toList) = some 2 ∧
    get_benchmark_data 0 (some [("a: 1.0 GFLOPS").toList, ("a: 2.0 GFLOPS").toList]) =
      some ⟨[("a".toList, (2 : ℚ))], fixedOptimizations, 0⟩ ∧
    dictLookup [("a".toList, (2 : ℚ))] ("a".toList) ≠ some 1 := by
  refine ⟨by decide, ?_, ?_, ?_, ?_⟩
  · rw [show pyFloat? ("1.0".toList) = some
        ((digitsVal ['1'] : ℚ) + (digitsVal ['0'] : ℚ) / (10 : ℚ) ^ 1) from rfl,
      show digitsVal ['1'] = 1 from rfl, show digitsVal ['0'] = 0 from rfl]
    norm_num
  · rw [show pyFloat? ("2.0".toList) = some
        ((digitsVal ['2'] : ℚ) + (digitsVal ['0'] : ℚ) / (10 : ℚ) ^ 1) from rfl,
      show digitsVal ['2'] = 2 from rfl, show digitsVal ['0'] = 0 from rfl]
    norm_num
  · rw [show get_benchmark_data 0
        (some [("a: 1.0 GFLOPS").toList, ("a: 2.0 GFLOPS").toList]) =
      some ⟨[("a".toList,
        (digitsVal ['2'] : ℚ) + (digitsVal ['0'] : ℚ) / (10 : ℚ) ^ 1)],
        fixedOptimizations, 0⟩ from rfl,
      show digitsVal ['2'] = 2 from rfl, show digitsVal ['0'] = 0 from rfl]
    norm_num
  · intro hcon
    rw [show dictLookup [("a".toList, (2 : ℚ))] ("a".toList) = some 2 from by
      simp [dictLookup]] at hcon
    simp at hcon

/-- C1 amended: a well-formed line whose label does not recur on any later
    entry-producing line contributes its entry to any successfully produced
    baseline mapping; every line lacking a colon or lacking the substring
    GFLOPS adds no entry; and the two-line example file with the target line
    and a bogus line parses to exactly the mapping small maps-to 2.59. -/
theorem C1_amended_thm :
    (∀ (t : ℚ) (pre post : List (List Char)) (s fstr : List Char) (v : ℚ)
       (d : BenchmarkData),
       s.dropWhile isPySpace = s →
       s.reverse.dropWhile isPySpace = s.reverse →
       ':' ∉ s →
       fstr ≠ [] →
       (∀ c ∈ fstr, isPySpace c = false ∧ c ≠ ':') →
       pyFloat? fstr = some v →
       (∀ l2 ∈ post, ∀ v2 : ℚ, lineStep l2 ≠ some (some (s, v2))) →
       get_benchmark_data t (some (pre ++ specShape s fstr :: post)) = some d →
       dictLookup d.baseline s = some v) ∧
    (∀ l : List Char, hasColon l = false ∨ hasGFLOPS l = false →
       lineStep l = some none) ∧
    (∀ t : ℚ, get_benchmark_data t
        (some [("small: 2.59 GFLOPS (target)").toList, ("bogus line").toList]) =
      some ⟨[("small".toList, (2.59 : ℚ))], fixedOptimizations, t⟩) := by
  refine ⟨?_, ?_, ?_⟩
  · intro t pre post s fstr v d hs1 hs2 hsc hne hfc hf hlast h
    exact parse_last_entry t pre post (specShape s fstr) s v d
      (lineStep_specShape s fstr v hs1 hs2 hsc hne hfc hf) hlast h
  · intro l h
    rcases h with h | h
    · simp [lineStep, h]
    · simp [lineStep, h]
  · intro t
    rw [show get_benchmark_data t
        (some [("small: 2.59 GFLOPS (target)").toList, ("bogus line").toList]) =
      some ⟨[("small".toList,
        (digitsVal ['2'] : ℚ) + (digitsVal ['5', '9'] : ℚ) / (10 : ℚ) ^ 2)],
        fixedOptimizations, t⟩ from rfl,
      show digitsVal ['2'] = 2 from rfl, show digitsVal ['5', '9'] = 59 from rfl]
    norm_num

/-- Witness for C1 amended on the label small with float token 2.59 followed
    by a bogus line. -/
theorem C1_witness :
    dictLookup [("small".toList, (259 / 100 : ℚ))] ("small".toList) =
      some (259 / 100) := by
  have hf : pyFloat? ("2.59".toList) = some (259 / 100 : ℚ) := by
    rw [show pyFloat? ("2.59".toList) = some
        ((digitsVal ['2'] : ℚ) + (digitsVal ['5', '9'] : ℚ) / (10 : ℚ) ^ 2) from rfl,
      show digitsVal ['2'] = 2 from rfl, show digitsVal ['5', '9'] = 59 from rfl]
    norm_num
  have hparse : get_benchmark_data 0
      (some ([] ++ specShape ("small".toList) ("2.59".toList) :: ["bogus line".toList])) =
      some ⟨[("small".toList, (259 / 100 : ℚ))], fixedOptimizations, 0⟩ := by
    rw [show ([] ++ specShape ("small".toList) ("2.59".toList) :: ["bogus line".toList]) =
      [("small: 2.59 GFLOPS").toList, ("bogus line").toList] from by decide]
    rw [show get_benchmark_data 0
        (some [("small: 2.59 GFLOPS").toList, ("bogus line").toList]) =
      some ⟨[("small".toList,
        (digitsVal ['2'] : ℚ) + (digitsVal ['5', '9'] : ℚ) / (10 : ℚ) ^ 2)],
        fixedOptimizations, 0⟩ from rfl,
      show digitsVal ['2'] = 2 from rfl, show digitsVal ['5', '9'] = 59 from rfl]
    norm_num
  have hlast : ∀ l2 ∈ ["bogus line".toList], ∀ v2 : ℚ,
      lineStep l2 ≠ some (some ("small".toList, v2)) := by
    intro l2 hl2 v2 hcon
    simp only [List.mem_singleton] at hl2
    subst hl2
    rw [show lineStep ("bogus line".toList) = some none from by decide] at hcon
    simp at hcon
  exact C1_amended_thm.1 0 [] ["bogus line".toList] ("small".toList) ("2.59".toList)
    (259 / 100) ⟨[("small".toList, (259 / 100 : ℚ))], fixedOptimizations, 0⟩
    (by decide) (by decide) (by decide) (by decide) (by decide) hf hlast hparse

/-- C4 counterexample: the cpuinfo text has two model name lines with values
    A then B, and get_system_info reports B, the last matching line, not the
    first matching line A as the claim states. -/
theorem C4_counterexample :
    get_system_info 0 (some ("model name: A\nmodel name: B").toList) =
      ⟨['B'], 0, some 0⟩ ∧
    (['B'] : List Char) ≠ ['A'] := ⟨by decide, by decide⟩

/-- C4 amended: the processor name comes from the last line containing the
    substring model name case-insensitively, as the text between the first
    and second colons of that line, trimmed; and the core count equals the
    number of lines that start with the prefix processor and do not contain
    the substring model name, whenever the scan completes with a timestamp. -/
theorem C4_amended_thm :
    (∀ (t : ℚ) (cpu : List Char) (pre : List (List Char)) (ml : List Char)
       (post : List (List Char)) (q0 p1 : List Char) (pr : List (List Char))
       (p : List Char) (c : ℕ),
       splitOnChar '\n' cpu = pre ++ ml :: post →
       isModelNameLine ml = true →
       splitOnChar ':' ml = q0 :: p1 :: pr →
       (∀ l ∈ post, isModelNameLine l = false) →
       get_system_info t (some cpu) = ⟨p, c, some t⟩ →
       p = pyStrip p1) ∧
    (∀ (t : ℚ) (cpu : List Char) (p : List Char) (c : ℕ),
       get_system_info t (some cpu) = ⟨p, c, some t⟩ →
       c = List.countP countsAsCore (splitOnChar '\n' cpu)) := by
  constructor
  · intro t cpu pre ml post q0 p1 pr p c hsplit hml hsp hlast h
    simp only [get_system_info] at h
    cases hscan : scanFrom ("Unknown".toList, 0) (splitOnChar '\n' cpu) with
    | none =>
      rw [hscan] at h
      simp at h
    | some val =>
      obtain ⟨a, b⟩ := val
      rw [hscan] at h
      simp only [SystemInfo.mk.injEq] at h
      rw [hsplit, scanFrom_append] at hscan
      cases hpre : scanFrom ("Unknown".toList, 0) pre with
      | none =>
        rw [hpre] at hscan
        simp at hscan
      | some acc1 =>
        rw [hpre] at hscan
        have hscan2 : scanFrom acc1 (ml :: post) = some (a, b) := hscan
        rw [scanFrom_cons_model acc1 ml post q0 p1 pr hml hsp] at hscan2
        have hfst := scanFrom_fst_stable post (pyStrip p1, acc1.2) (a, b) hlast hscan2
        rw [← h.1]
        exact hfst
  · intro t cpu p c h
    simp only [get_system_info] at h
    cases hscan : scanFrom ("Unknown".toList, 0) (splitOnChar '\n' cpu) with
    | none =>
      rw [hscan] at h
      simp at h
    | some val =>
      obtain ⟨a, b⟩ := val
      rw [hscan] at h
      simp only [SystemInfo.mk.injEq] at h
      have hb := scanFrom_cores (splitOnChar '\n' cpu) ("Unknown".toList, 0) (a, b) hscan
      simp at hb
      rw [← h.2.1]
      exact hb

/-- Witness for C4 amended on a model name line followed by two processor
    lines. -/
theorem C4_witness :
    ("X".toList = pyStrip (" X".toList)) ∧
    (2 = List.countP countsAsCore
      (splitOnChar '\n' ("model name: X\nprocessor : 0\nprocessor : 1").toList)) :=
  ⟨C4_amended_thm.1 0 ("model name: X\nprocessor : 0\nprocessor : 1").toList
      [] ("model name: X".toList) ["processor : 0".toList, "processor : 1".toList]
      ("model name".toList) (" X".toList) [] ("X".toList) 2
      (by decide) (by decide) (by decide) (by decide) (by decide),
   C4_amended_thm.2 0 ("model name: X\nprocessor : 0\nprocessor : 1").toList
      ("X".toList) 2 (by decide)⟩

/-- C7 counterexample: a POST to the run-benchmark route with an absent or
    non-JSON body makes the handler raise before any response is written, so
    no 200 response with a defaulted type is returned. -/
theorem C7_counterexample :
    (do_POST false "/api/run-benchmark" none).1 = none ∧
    (none : Option PostResponse) ≠
      some (PostResponse.ok ⟨"started", Json.str "baseline"⟩) :=
  ⟨rfl, by simp⟩

/-- C7 amended: a POST body that decodes to a JSON object without a type key
    gets the 200 acknowledgement with type defaulted to baseline, while an
    absent or undecodable body raises an uncaught exception and produces no
    response at all. -/
theorem C7_amended_thm :
    (∀ (e : Bool) (fields : List (String × Json)),
       lookupLast fields "type" = none →
       do_POST e "/api/run-benchmark" (some (Json.obj fields)) =
         (some (PostResponse.ok ⟨"started", Json.str "baseline"⟩), true)) ∧
    (∀ e : Bool, do_POST e "/api/run-benchmark" none = (none, false)) := by
  constructor
  · intro e fields h
    simp [do_POST, pyGet, h, run_benchmark]
  · intro e
    rfl

/-- Witness for C7 amended on the empty JSON object body. -/
theorem C7_witness :
    do_POST false "/api/run-benchmark" (some (Json.obj [])) =
      (some (PostResponse.ok ⟨"started", Json.str "baseline"⟩), true) :=
  C7_amended_thm.1 false [] rfl
